import Mathlib

/-!
Verification of the Makina revenue-model projection engine.

Shallow embedding of `src/calculator.py` (class `RevenueCalculator`) and the
data model of `src/database.py` (`Machine`, `Scenario`).  Monetary amounts are
modelled as exact rationals; pandas column division (which produces IEEE NaN
and infinities on a zero denominator, with `fillna(0)` replacing only NaN) is
modelled by the `PFloat` type.  Calendar dates are modelled with explicit
year/month/day components and Python's `date` lexicographic ordering;
`relativedelta(months=i)` is `PDate.addMonths` with end-of-month day clamping.
-/

/-- A calendar date: Python `datetime.date`.  Ordering on dates is
lexicographic on (year, month, day). -/
structure PDate where
  year : Int
  month : Int
  day : Int
deriving DecidableEq, Repr

/-- Python `a < b` on dates: strict lexicographic comparison. -/
def PDate.blt (a b : PDate) : Bool :=
  a.year < b.year ||
    (a.year == b.year && (a.month < b.month ||
      (a.month == b.month && a.day < b.day)))

/-- Python `a <= b` on dates (total order: the negation of `b < a`). -/
def PDate.ble (a b : PDate) : Bool := !(PDate.blt b a)

/-- Gregorian leap-year test. -/
def isLeapYear (y : Int) : Bool :=
  y % 4 == 0 && (y % 100 != 0 || y % 400 == 0)

/-- Number of days in a given month of a given year. -/
def daysInMonth (y m : Int) : Int :=
  if m == 2 then (if isLeapYear y then 29 else 28)
  else if m == 4 || m == 6 || m == 9 || m == 11 then 30
  else 31

/-- `d + relativedelta(months := i)`: advance `i` whole months, clamping the
day to the length of the target month. -/
def PDate.addMonths (d : PDate) (i : Nat) : PDate :=
  let t : Int := d.month - 1 + (i : Int)
  let y : Int := d.year + t / 12
  let m : Int := t % 12 + 1
  ⟨y, m, min d.day (daysInMonth y m)⟩

/-- Scenario record (`src/database.py`, class `Scenario`): USD prices of the
two non-USD currencies. -/
structure Scenario where
  eth_price : ℚ
  btc_price : ℚ
deriving DecidableEq, Repr

/-- Machine record (`src/database.py`, class `Machine`): one unit's static
configuration. -/
structure Machine where
  name : String
  currency : String
  launch_date : Option PDate
  initial_aum : ℚ
  monthly_growth_rate : ℚ
  management_fee_total : ℚ
  management_fee_makina_share : ℚ
  performance_fee_total : ℚ
  performance_fee_makina_share : ℚ
  yield_apr : ℚ
  net_return_margin : ℚ
  employee_capital : ℚ
deriving DecidableEq, Repr

/-- `Machine.management_fee_makina` property: total rate times Makina share. -/
def Machine.management_fee_makina (m : Machine) : ℚ :=
  m.management_fee_total * m.management_fee_makina_share

/-- `Machine.performance_fee_makina` property: total rate times Makina share. -/
def Machine.performance_fee_makina (m : Machine) : ℚ :=
  m.performance_fee_total * m.performance_fee_makina_share

/-- `machine.employee_capital if machine.employee_capital else 0.0`
(calculator.py line 83): Python's falsy check maps 0.0 to 0.0, so on
rationals it is the identity. -/
def employee_capital_rate (m : Machine) : ℚ :=
  if m.employee_capital == 0 then 0 else m.employee_capital

/-- One projection row (one unit, one period), with the column set built in
`calculate_machine_projections`. -/
structure Row where
  date : PDate
  aum : ℚ
  aum_usd : ℚ
  management_fee : ℚ
  management_fee_usd : ℚ
  performance_fee : ℚ
  performance_fee_usd : ℚ
  total_fee_usd : ℚ
  machine_name : String
  currency : String
deriving DecidableEq, Repr

/-- The currency-conversion lookup (calculator.py lines 42-47):
`{'ETH': eth_price, 'USD': 1.0, 'BTC': btc_price}.get(currency, 1.0)` —
an unknown currency silently falls back to the default rate 1.0. -/
def currencyRate (s : Scenario) (c : String) : ℚ :=
  if c = "ETH" then s.eth_price
  else if c = "USD" then 1
  else if c = "BTC" then s.btc_price
  else 1

/-- Pre-launch test (line 54): `machine.launch_date and month_date < machine.launch_date`. -/
def isPreLaunch (m : Machine) (d : PDate) : Bool :=
  match m.launch_date with
  | some l => d.blt l
  | none => false

/-- Launch-month test (line 69): `machine.launch_date and month_date == machine.launch_date`. -/
def isLaunchMonth (m : Machine) (d : PDate) : Bool :=
  match m.launch_date with
  | some l => d == l
  | none => false

/-- The all-zero row emitted before launch (lines 56-65). -/
def zeroRow (m : Machine) (d : PDate) : Row :=
  ⟨d, 0, 0, 0, 0, 0, 0, 0, m.name, m.currency⟩

/-- The post-launch row built from the period's start balance `aum`
(lines 72-105): native management fee `aum × management_fee_makina / 12`,
monthly yield `aum × yield_apr / 12`, native performance fee
`performance_fee_makina × monthly_yield × net_return_margin ×
(1 − employee_capital_rate)`, each USD column the native value times the
conversion rate, and the total the sum of the two USD fees. -/
def emitRow (m : Machine) (rate : ℚ) (d : PDate) (aum : ℚ) : Row :=
  let management_fee_native := aum * m.management_fee_makina / 12
  let management_fee_usd := management_fee_native * rate
  let monthly_yield := aum * m.yield_apr / 12
  let performance_fee_native :=
    m.performance_fee_makina * monthly_yield * m.net_return_margin *
      (1 - employee_capital_rate m)
  let performance_fee_usd := performance_fee_native * rate
  let total_fee_usd := management_fee_usd + performance_fee_usd
  ⟨d, aum, aum * rate, management_fee_native, management_fee_usd,
    performance_fee_native, performance_fee_usd, total_fee_usd,
    m.name, m.currency⟩

/-- The loop body of `calculate_machine_projections` (lines 52-109), recursing
over the remaining month dates with the running native balance as state.  The
launch-month reset (line 69-70) appears once per occurrence of the period's
start balance: the emitted row and the advanced balance both read the
post-reset value. -/
def projRows (m : Machine) (rate : ℚ) : List PDate → ℚ → List Row
  | [], _ => []
  | d :: ds, current_aum =>
    if isPreLaunch m d then
      zeroRow m d :: projRows m rate ds current_aum
    else
      emitRow m rate d (if isLaunchMonth m d then m.initial_aum else current_aum) ::
        projRows m rate ds
          ((if isLaunchMonth m d then m.initial_aum else current_aum) +
            m.initial_aum * m.monthly_growth_rate)

/-- Calculator construction state (`__init__`, lines 13-23).  `months` is an
`Int` because Python accepts any integer; `range(months)` of a non-positive
horizon is empty, which `Int.toNat` reproduces. -/
structure RevenueCalculator where
  start_date : PDate
  months : Int
deriving DecidableEq, Repr

/-- `self.dates = [start_date + relativedelta(months=i) for i in range(months)]`. -/
def RevenueCalculator.dates (c : RevenueCalculator) : List PDate :=
  (List.range c.months.toNat).map (fun i => c.start_date.addMonths i)

/-- `calculate_machine_projections` (lines 25-114): the running balance starts
at `machine.initial_aum` (line 50) and the loop walks `self.dates`. -/
def calculate_machine_projections (c : RevenueCalculator) (m : Machine)
    (s : Scenario) : List Row :=
  projRows m (currencyRate s m.currency) c.dates m.initial_aum

/-- `calculate_all_machines` (lines 116-135): concatenation of the per-machine
series. -/
def calculate_all_machines (c : RevenueCalculator) (ms : List Machine)
    (s : Scenario) : List Row :=
  (ms.map (fun m => calculate_machine_projections c m s)).flatten

/-!  Aggregators.  pandas `groupby(key).agg(sum)` is modelled as: one output
entry per distinct key value, whose numeric fields are the sums of the input
column over the rows carrying that key.  (pandas sorts group keys; key order
is irrelevant to every property below, so groups are listed in first-occurrence
order of `List.dedup`.) -/

/-- Sum of column `f` over the rows of `df` with period date `d`. -/
def sumAt (df : List Row) (d : PDate) (f : Row → ℚ) : ℚ :=
  ((df.filter (fun r => r.date == d)).map f).sum

/-- The distinct period dates of a dataset (the group keys of `groupby('date')`). -/
def uniqueDates (df : List Row) : List PDate :=
  (df.map (fun r => r.date)).dedup

/-- Pandas float column cell: exact rational, or one of the IEEE specials that
column arithmetic can produce from finite operands. -/
inductive PFloat where
  | val (q : ℚ)
  | nan
  | posInf
  | negInf
deriving DecidableEq, Repr

/-- Pandas column division of finite values: `x / 0` is `+inf` or `-inf` for
nonzero `x`, and `0 / 0` is NaN. -/
def pdiv (a b : ℚ) : PFloat :=
  if b ≠ 0 then .val (a / b)
  else if a = 0 then .nan
  else if a > 0 then .posInf
  else .negInf

/-- Multiplication of a column cell by a finite constant (IEEE semantics:
infinity keeps or flips sign with a nonzero constant, and is NaN times 0). -/
def PFloat.scale (v : PFloat) (c : ℚ) : PFloat :=
  match v with
  | .val q => .val (q * c)
  | .nan => .nan
  | .posInf => if c > 0 then .posInf else if c = 0 then .nan else .negInf
  | .negInf => if c > 0 then .negInf else if c = 0 then .nan else .posInf

/-- `Series.fillna(0)`: replaces NaN by 0 and nothing else (infinities pass
through). -/
def PFloat.fillna0 : PFloat → PFloat
  | .nan => .val 0
  | v => v

/-- One output row of `calculate_fee_percentage` (lines 237-251). -/
structure FeePctRow where
  date : PDate
  fee_pct_annualized : PFloat
  total_fee_usd : ℚ
  aum_usd : ℚ
deriving DecidableEq, Repr

/-- One period's output of `calculate_fee_percentage`: the per-date totals of
`aggregate_fees_by_date` and `(total_fee_usd / aum_usd * 12 * 100).fillna(0)`
(lines 246-251). -/
def feePctRowOf (df : List Row) (d : PDate) : FeePctRow :=
  ⟨d,
    (((pdiv (sumAt df d (fun r => r.total_fee_usd))
        (sumAt df d (fun r => r.aum_usd))).scale 12).scale 100).fillna0,
    sumAt df d (fun r => r.total_fee_usd),
    sumAt df d (fun r => r.aum_usd)⟩

/-- `calculate_fee_percentage` (lines 237-251): one row per distinct period. -/
def calculate_fee_percentage (df : List Row) : List FeePctRow :=
  (uniqueDates df).map (feePctRowOf df)

/-- The distinct calendar years of a dataset, in first-occurrence order of its
distinct dates. -/
def yearsOf (df : List Row) : List Int :=
  ((uniqueDates df).map (fun d => d.year)).dedup

/-- The distinct period dates of a dataset falling in year `y`. -/
def datesInYear (df : List Row) (y : Int) : List PDate :=
  (uniqueDates df).filter (fun d => d.year == y)

/-- One step of the running-maximum fold over dates. -/
def maxStep (acc : Option PDate) (d : PDate) : Option PDate :=
  match acc with
  | none => some d
  | some a => if a.blt d then some d else some a

/-- The maximal date of a list (Python/pandas date ordering); `none` on the
empty list.  `idxmax` on the date column selects the row carrying this
date — group dates are distinct, so the row is unique. -/
def latestDate (l : List PDate) : Option PDate :=
  l.foldl maxStep none

/-- One output row of `aggregate_by_year` (lines 171-235). -/
structure YearRow where
  year : Int
  end_of_year_aum : ℚ
  total_management_fees : ℚ
  total_performance_fees : ℚ
  total_fees : ℚ
  avg_fee_pct : PFloat
deriving DecidableEq, Repr

/-- One year's output of `aggregate_by_year` (lines 171-235): end-of-year AUM
is the `aum_usd` of the date-wise `idxmax` entry of the year's per-date totals
(lines 202-204), the fee columns are sums of the per-date totals over the
year (lines 214-218), and `avg_fee_pct = (total_fee_usd / avg_aum_usd *
100).fillna(0)` where `avg_aum_usd` is the mean per-date AUM of the year
(lines 208-225). -/
def yearRowOf (df : List Row) (y : Int) : YearRow :=
  ⟨y,
    (match latestDate (datesInYear df y) with
     | some d => sumAt df d (fun r => r.aum_usd)
     | none => 0),
    ((datesInYear df y).map (fun d => sumAt df d (fun r => r.management_fee_usd))).sum,
    ((datesInYear df y).map (fun d => sumAt df d (fun r => r.performance_fee_usd))).sum,
    ((datesInYear df y).map (fun d => sumAt df d (fun r => r.total_fee_usd))).sum,
    ((pdiv (((datesInYear df y).map (fun d => sumAt df d (fun r => r.total_fee_usd))).sum)
        ((((datesInYear df y).map (fun d => sumAt df d (fun r => r.aum_usd))).sum) /
          ((datesInYear df y).length : ℚ))).scale 100).fillna0⟩

/-- `aggregate_by_year` (lines 171-235): one row per distinct calendar year. -/
def aggregate_by_year (df : List Row) : List YearRow :=
  (yearsOf df).map (yearRowOf df)

/-!  Basic facts about the date order. -/

/-- `blt` is the strict lexicographic order on (year, month, day). -/
theorem PDate.blt_iff (a b : PDate) :
    a.blt b = true ↔
      (a.year < b.year ∨ (a.year = b.year ∧
        (a.month < b.month ∨ (a.month = b.month ∧ a.day < b.day)))) := by
  simp [PDate.blt, Bool.or_eq_true, Bool.and_eq_true, decide_eq_true_eq, beq_iff_eq]

theorem PDate.blt_irrefl (a : PDate) : a.blt a = false := by
  have := PDate.blt_iff a a
  cases h : a.blt a with
  | false => rfl
  | true => exfalso; rcases this.mp h with h1 | ⟨_, h1 | ⟨_, h1⟩⟩ <;> omega

theorem PDate.blt_asymm {a b : PDate} (h : a.blt b = true) : b.blt a = false := by
  cases hba : b.blt a with
  | false => rfl
  | true =>
    exfalso
    rcases (PDate.blt_iff a b).mp h with h1 | ⟨e1, h1 | ⟨e2, h1⟩⟩ <;>
      rcases (PDate.blt_iff b a).mp hba with h2 | ⟨f1, h2 | ⟨f2, h2⟩⟩ <;> omega

theorem PDate.ble_iff (a b : PDate) : a.ble b = true ↔ b.blt a = false := by
  simp [PDate.ble]

theorem PDate.ble_refl (a : PDate) : a.ble a = true :=
  (PDate.ble_iff a a).mpr (PDate.blt_irrefl a)

theorem PDate.ble_trans {a b c : PDate} (h1 : a.ble b = true) (h2 : b.ble c = true) :
    a.ble c = true := by
  rw [PDate.ble_iff] at h1 h2 ⊢
  have n1 : ¬ b.blt a = true := by simp [h1]
  have n2 : ¬ c.blt b = true := by simp [h2]
  cases hca : c.blt a with
  | false => rfl
  | true =>
    exfalso
    rw [PDate.blt_iff] at n1 n2
    rcases (PDate.blt_iff c a).mp hca with h3 | ⟨e1, h3 | ⟨e2, h3⟩⟩ <;> omega

theorem PDate.blt_ble {a b : PDate} (h : a.blt b = true) : a.ble b = true :=
  (PDate.ble_iff a b).mpr (PDate.blt_asymm h)

/-- Strictly-earlier month (ignoring the day components). -/
def monthBefore (a b : PDate) : Bool :=
  a.year < b.year || (a.year == b.year && a.month < b.month)

/-- A date in a strictly earlier month is an earlier date, whatever the days. -/
theorem monthBefore_blt {a b : PDate} (h : monthBefore a b = true) :
    a.blt b = true := by
  rw [PDate.blt_iff]
  simp [monthBefore, Bool.or_eq_true, Bool.and_eq_true, decide_eq_true_eq,
    beq_iff_eq] at h
  rcases h with h | ⟨e, h⟩
  · exact Or.inl h
  · exact Or.inr ⟨e, Or.inl h⟩

/-!  Structural facts about the projection loop. -/

/-- The loop emits exactly one row per month date. -/
theorem projRows_length (m : Machine) (rate : ℚ) :
    ∀ (ds : List PDate) (b : ℚ), (projRows m rate ds b).length = ds.length := by
  intro ds
  induction ds with
  | nil => intro b; rfl
  | cons d ds ih =>
    intro b
    rw [projRows]
    split <;> simp [ih]

/-- Per-row arithmetic relations holding for every row the loop emits, zero
rows included: the native fees are the source formulas applied to the row's
own (start-of-period) balance, and each USD column is the native column times
the conversion rate. -/
theorem projRows_mem_spec (m : Machine) (rate : ℚ) :
    ∀ (ds : List PDate) (b : ℚ) (r : Row), r ∈ projRows m rate ds b →
      r.management_fee = r.aum * m.management_fee_makina / 12 ∧
      r.performance_fee = m.performance_fee_makina * (r.aum * m.yield_apr / 12) *
        m.net_return_margin * (1 - employee_capital_rate m) ∧
      r.aum_usd = r.aum * rate ∧
      r.management_fee_usd = r.management_fee * rate ∧
      r.performance_fee_usd = r.performance_fee * rate ∧
      r.total_fee_usd = r.management_fee_usd + r.performance_fee_usd ∧
      r.machine_name = m.name ∧
      r.currency = m.currency := by
  intro ds
  induction ds with
  | nil => intro b r hr; simp [projRows] at hr
  | cons d ds ih =>
    intro b r hr
    rw [projRows] at hr
    by_cases hp : isPreLaunch m d = true
    · rw [if_pos hp] at hr
      rcases List.mem_cons.mp hr with rfl | h
      · refine ⟨by simp [zeroRow], by simp [zeroRow], by simp [zeroRow],
          by simp [zeroRow], by simp [zeroRow], by simp [zeroRow], rfl, rfl⟩
      · exact ih _ _ h
    · rw [if_neg hp] at hr
      rcases List.mem_cons.mp hr with rfl | h
      · exact ⟨rfl, rfl, rfl, rfl, rfl, rfl, rfl, rfl⟩
      · exact ih _ _ h

/-- Python's falsy check on `employee_capital` is the identity on rationals. -/
theorem employee_capital_rate_eq (m : Machine) :
    employee_capital_rate m = m.employee_capital := by
  unfold employee_capital_rate
  by_cases h : m.employee_capital = 0 <;> simp [h]

/-- The engine emits exactly `max(months, 0)` rows for every input. -/
theorem calculate_machine_projections_length (c : RevenueCalculator) (m : Machine)
    (s : Scenario) : (calculate_machine_projections c m s).length = c.months.toNat := by
  unfold calculate_machine_projections
  rw [projRows_length]
  simp [RevenueCalculator.dates]

/-- C5: for every row produced by the projection engine for any unit, scenario,
start date and horizon, the total USD fee equals the USD management fee plus
the USD performance fee, exactly. -/
theorem total_fee_sum_invariant (c : RevenueCalculator) (m : Machine) (s : Scenario)
    (r : Row) (hr : r ∈ calculate_machine_projections c m s) :
    r.total_fee_usd = r.management_fee_usd + r.performance_fee_usd :=
  (projRows_mem_spec m (currencyRate s m.currency) c.dates m.initial_aum r hr).2.2.2.2.2.1

def c5machine : Machine := ⟨"W5", "USD", none, 120, 0, 0, 0, 0, 0, 0, 0, 0⟩

def c5calc : RevenueCalculator := ⟨⟨2026, 1, 1⟩, 1⟩

def c5scen : Scenario := ⟨3000, 90000⟩

def c5row : Row := ⟨⟨2026, 1, 1⟩, 120, 120, 0, 0, 0, 0, 0, "W5", "USD"⟩

theorem total_fee_sum_invariant_witness :
    c5row ∈ calculate_machine_projections c5calc c5machine c5scen ∧
    c5row.total_fee_usd = c5row.management_fee_usd + c5row.performance_fee_usd := by
  have hm : c5row ∈ calculate_machine_projections c5calc c5machine c5scen := by
    simp [calculate_machine_projections, RevenueCalculator.dates, projRows, emitRow,
      currencyRate, isPreLaunch, isLaunchMonth, PDate.addMonths, daysInMonth,
      isLeapYear, Machine.management_fee_makina, Machine.performance_fee_makina,
      employee_capital_rate, c5calc, c5machine, c5scen, c5row, List.range_succ]
  exact ⟨hm, total_fee_sum_invariant c5calc c5machine c5scen c5row hm⟩

def c2machine : Machine :=
  ⟨"Bench", "USD", none, 1000000, 0, 1/100, 4/10, 15/100, 4/10, 8/100, 7/10, 0⟩

def c2calc : RevenueCalculator := ⟨⟨2026, 1, 1⟩, 1⟩

def c2scen : Scenario := ⟨3000, 90000⟩

def c2row : Row :=
  ⟨⟨2026, 1, 1⟩, 1000000, 1000000, 1000/3, 1000/3, 280, 280, 1840/3, "Bench", "USD"⟩

/-- C2: every emitted row's native management fee is the start-of-period
balance times `management_fee_total × management_fee_makina_share / 12`, and
its native performance fee is
`(performance_fee_total × performance_fee_makina_share) × (balance × yield_apr / 12)
× net_return_margin × (1 − employee_capital)`;  the one-month USD benchmark
unit yields management fee 1000/3 (= 333.33 to the cent), performance fee 280
exactly, and total USD fee 1840/3 (= 613.33 to the cent). -/
theorem fee_formulas_and_benchmark :
    (∀ (c : RevenueCalculator) (m : Machine) (s : Scenario) (r : Row),
        r ∈ calculate_machine_projections c m s →
        r.management_fee =
          r.aum * (m.management_fee_total * m.management_fee_makina_share) / 12 ∧
        r.performance_fee =
          (m.performance_fee_total * m.performance_fee_makina_share) *
            (r.aum * m.yield_apr / 12) * m.net_return_margin *
            (1 - m.employee_capital)) ∧
    (calculate_machine_projections c2calc c2machine c2scen = [c2row] ∧
      c2row.management_fee = 1000 / 3 ∧
      |c2row.management_fee - 33333/100| < 1/100 ∧
      c2row.performance_fee = 280 ∧
      c2row.total_fee_usd = 1840 / 3 ∧
      |c2row.total_fee_usd - 61333/100| < 1/100) := by
  constructor
  · intro c m s r hr
    obtain ⟨h1, h2, _⟩ :=
      projRows_mem_spec m (currencyRate s m.currency) c.dates m.initial_aum r hr
    exact ⟨by rw [h1]; rfl, by rw [h2, employee_capital_rate_eq]; rfl⟩
  · refine ⟨?_, by norm_num [c2row], by norm_num [c2row, abs_lt], by norm_num [c2row],
      by norm_num [c2row], by norm_num [c2row, abs_lt]⟩
    simp [calculate_machine_projections, RevenueCalculator.dates, projRows, emitRow,
      currencyRate, isPreLaunch, isLaunchMonth, PDate.addMonths, daysInMonth,
      isLeapYear, Machine.management_fee_makina, Machine.performance_fee_makina,
      employee_capital_rate, c2calc, c2machine, c2scen, c2row, List.range_succ]
    norm_num

theorem fee_formulas_and_benchmark_witness :
    c2row ∈ calculate_machine_projections c2calc c2machine c2scen ∧
    c2row.management_fee =
      c2row.aum * ((1/100) * (4/10)) / 12 := by
  have hm : c2row ∈ calculate_machine_projections c2calc c2machine c2scen := by
    rw [fee_formulas_and_benchmark.2.1]
    exact List.mem_singleton.mpr rfl
  have h := (fee_formulas_and_benchmark.1 c2calc c2machine c2scen c2row hm).1
  exact ⟨hm, h⟩

/-- C6: for every row the engine produces, the USD balance is the native
balance times the scenario price of the unit's currency (`eth_price` for ETH,
`btc_price` for BTC, and the fixed rate 1 for USD), and the same conversion
relates each native fee to its USD counterpart. -/
theorem usd_conversion_invariant (c : RevenueCalculator) (m : Machine) (s : Scenario)
    (r : Row) (hr : r ∈ calculate_machine_projections c m s) :
    currencyRate s "USD" = 1 ∧
    r.aum_usd = r.aum * currencyRate s m.currency ∧
    r.management_fee_usd = r.management_fee * currencyRate s m.currency ∧
    r.performance_fee_usd = r.performance_fee * currencyRate s m.currency ∧
    (m.currency = "ETH" → currencyRate s m.currency = s.eth_price) ∧
    (m.currency = "BTC" → currencyRate s m.currency = s.btc_price) ∧
    (m.currency = "USD" → currencyRate s m.currency = 1) := by
  obtain ⟨_, _, h3, h4, h5, _⟩ :=
    projRows_mem_spec m (currencyRate s m.currency) c.dates m.initial_aum r hr
  refine ⟨by simp [currencyRate], h3, h4, h5, ?_, ?_, ?_⟩ <;>
    (intro h; simp [currencyRate, h])

def c6machine : Machine := ⟨"W6", "ETH", none, 10, 0, 0, 0, 0, 0, 0, 0, 0⟩

def c6calc : RevenueCalculator := ⟨⟨2026, 1, 1⟩, 1⟩

def c6scen : Scenario := ⟨2500, 80000⟩

def c6row : Row := ⟨⟨2026, 1, 1⟩, 10, 25000, 0, 0, 0, 0, 0, "W6", "ETH"⟩

theorem usd_conversion_invariant_witness :
    c6row ∈ calculate_machine_projections c6calc c6machine c6scen ∧
    c6row.aum_usd = c6row.aum * currencyRate c6scen c6machine.currency ∧
    currencyRate c6scen c6machine.currency = c6scen.eth_price := by
  have hm : c6row ∈ calculate_machine_projections c6calc c6machine c6scen := by
    simp [calculate_machine_projections, RevenueCalculator.dates, projRows, emitRow,
      currencyRate, isPreLaunch, isLaunchMonth, PDate.addMonths, daysInMonth,
      isLeapYear, Machine.management_fee_makina, Machine.performance_fee_makina,
      employee_capital_rate, c6calc, c6machine, c6scen, c6row, List.range_succ]
    norm_num
  have h := usd_conversion_invariant c6calc c6machine c6scen c6row hm
  exact ⟨hm, h.2.1, h.2.2.2.2.1 rfl⟩

/-- With no launch date the loop never gates: the row at index `k` carries the
balance `b + k` growth increments. -/
theorem projRows_aum_linear (m : Machine) (hl : m.launch_date = none) (rate : ℚ) :
    ∀ (ds : List PDate) (b : ℚ) (k : Nat) (r : Row),
      (projRows m rate ds b)[k]? = some r →
      r.aum = b + (k : ℚ) * (m.initial_aum * m.monthly_growth_rate) := by
  intro ds
  induction ds with
  | nil => intro b k r h; simp [projRows] at h
  | cons d ds ih =>
    intro b k r h
    rw [projRows, if_neg (by simp [isPreLaunch, hl] : ¬ isPreLaunch m d = true)] at h
    cases k with
    | zero =>
      rw [List.getElem?_cons_zero, Option.some_inj] at h
      rw [← h]
      simp [isLaunchMonth, hl, emitRow]
    | succ k =>
      rw [List.getElem?_cons_succ] at h
      have hrec := ih _ k r h
      rw [if_neg (by simp [isLaunchMonth, hl] : ¬ isLaunchMonth m d = true)] at hrec
      rw [hrec]
      push_cast
      ring

/-- C3: for a unit with no launch date, initial balance `A` and monthly growth
rate `g`, the native balance emitted at every period index `k` below the
horizon is exactly `A + k (A g)`: a fixed increment computed from the original
initial balance, so the progression is linear, never compounding. -/
theorem additive_growth_linear (c : RevenueCalculator) (m : Machine) (s : Scenario)
    (hl : m.launch_date = none) (k : Nat) (hk : k < c.months.toNat) :
    ∃ r, (calculate_machine_projections c m s)[k]? = some r ∧
      r.aum = m.initial_aum + (k : ℚ) * (m.initial_aum * m.monthly_growth_rate) := by
  have hlen : k < (calculate_machine_projections c m s).length := by
    rw [calculate_machine_projections_length]; exact hk
  exact ⟨(calculate_machine_projections c m s)[k], List.getElem?_eq_getElem hlen,
    projRows_aum_linear m hl _ c.dates m.initial_aum k _ (List.getElem?_eq_getElem hlen)⟩

def c3machine : Machine := ⟨"W3", "USD", none, 100, 1/10, 0, 0, 0, 0, 0, 0, 0⟩

def c3calc : RevenueCalculator := ⟨⟨2026, 1, 1⟩, 6⟩

def c3scen : Scenario := ⟨3000, 90000⟩

theorem additive_growth_linear_witness :
    c3machine.launch_date = none ∧ (5 : Nat) < c3calc.months.toNat ∧
    ∃ r, (calculate_machine_projections c3calc c3machine c3scen)[5]? = some r ∧
      r.aum = c3machine.initial_aum +
        (5 : ℚ) * (c3machine.initial_aum * c3machine.monthly_growth_rate) :=
  ⟨rfl, by decide, additive_growth_linear c3calc c3machine c3scen rfl 5 (by decide)⟩

/-- Every row the loop emits before the launch date is the all-zero row, and a
row dated exactly at the launch date carries the reset balance. -/
theorem projRows_prelaunch_spec (m : Machine) (l : PDate)
    (hl : m.launch_date = some l) (rate : ℚ) :
    ∀ (ds : List PDate) (b : ℚ) (r : Row), r ∈ projRows m rate ds b →
      (r.date.blt l = true → r = zeroRow m r.date) ∧
      (r.date = l → r.aum = m.initial_aum) := by
  intro ds
  induction ds with
  | nil => intro b r hr; simp [projRows] at hr
  | cons d ds ih =>
    intro b r hr
    rw [projRows] at hr
    by_cases hp : isPreLaunch m d = true
    · rw [if_pos hp] at hr
      rcases List.mem_cons.mp hr with rfl | h
      · have hblt : d.blt l = true := by simpa [isPreLaunch, hl] using hp
        refine ⟨fun _ => rfl, fun hd => ?_⟩
        exfalso
        have hd' : d = l := hd
        subst hd'
        rw [PDate.blt_irrefl] at hblt
        exact Bool.false_ne_true hblt
      · exact ih _ _ h
    · rw [if_neg hp] at hr
      rcases List.mem_cons.mp hr with rfl | h
      · refine ⟨fun hblt => absurd (by simpa [isPreLaunch, hl, emitRow] using hblt) hp,
          fun hd => ?_⟩
        have hd' : d = l := by simpa [emitRow] using hd
        have hlm : isLaunchMonth m d = true := by simp [isLaunchMonth, hl, hd']
        simp [hlm, emitRow]
      · exact ih _ _ h

/-- C4: for a unit with a launch date, every output row dated in a month
strictly before the launch month has zero balance and zero fees, the pre-launch
iteration leaves the running balance untouched, and a row dated exactly at the
launch date carries balance `initial_aum`. -/
theorem prelaunch_rows_zero (c : RevenueCalculator) (m : Machine) (s : Scenario)
    (l : PDate) (hl : m.launch_date = some l) :
    (∀ r ∈ calculate_machine_projections c m s,
       (monthBefore r.date l = true →
         r.aum = 0 ∧ r.aum_usd = 0 ∧ r.management_fee = 0 ∧
         r.management_fee_usd = 0 ∧ r.performance_fee = 0 ∧
         r.performance_fee_usd = 0 ∧ r.total_fee_usd = 0) ∧
       (r.date = l → r.aum = m.initial_aum)) ∧
    (∀ (rate b : ℚ) (d : PDate) (ds : List PDate), d.blt l = true →
       projRows m rate (d :: ds) b = zeroRow m d :: projRows m rate ds b) := by
  constructor
  · intro r hr
    have h := projRows_prelaunch_spec m l hl (currencyRate s m.currency)
      c.dates m.initial_aum r hr
    refine ⟨fun hm => ?_, h.2⟩
    have hz := h.1 (monthBefore_blt hm)
    rw [hz]
    simp [zeroRow]
  · intro rate b d ds hd
    rw [projRows, if_pos (by simp [isPreLaunch, hl, hd])]

def c4machine : Machine :=
  ⟨"W4", "USD", some ⟨2026, 3, 1⟩, 50, 1/10, 0, 0, 0, 0, 0, 0, 0⟩

def c4calc : RevenueCalculator := ⟨⟨2026, 1, 1⟩, 3⟩

def c4scen : Scenario := ⟨3000, 90000⟩

def c4zrow : Row := ⟨⟨2026, 1, 1⟩, 0, 0, 0, 0, 0, 0, 0, "W4", "USD"⟩

def c4lrow : Row := ⟨⟨2026, 3, 1⟩, 50, 50, 0, 0, 0, 0, 0, "W4", "USD"⟩

theorem prelaunch_rows_zero_witness :
    c4zrow ∈ calculate_machine_projections c4calc c4machine c4scen ∧
    monthBefore c4zrow.date ⟨2026, 3, 1⟩ = true ∧ c4zrow.aum = 0 ∧
    c4lrow ∈ calculate_machine_projections c4calc c4machine c4scen ∧
    c4lrow.aum = c4machine.initial_aum := by
  have hev : calculate_machine_projections c4calc c4machine c4scen =
      [c4zrow, ⟨⟨2026, 2, 1⟩, 0, 0, 0, 0, 0, 0, 0, "W4", "USD"⟩, c4lrow] := by
    simp [calculate_machine_projections, RevenueCalculator.dates, projRows, emitRow,
      currencyRate, isPreLaunch, isLaunchMonth, PDate.blt, PDate.addMonths,
      daysInMonth, isLeapYear, Machine.management_fee_makina,
      Machine.performance_fee_makina, employee_capital_rate, zeroRow,
      c4calc, c4machine, c4scen, c4zrow, c4lrow, List.range_succ]
  have h1 : c4zrow ∈ calculate_machine_projections c4calc c4machine c4scen := by
    rw [hev]; simp
  have h2 : c4lrow ∈ calculate_machine_projections c4calc c4machine c4scen := by
    rw [hev]; simp
  refine ⟨h1, by decide, ?_, h2, ?_⟩
  · exact (((prelaunch_rows_zero c4calc c4machine c4scen ⟨2026, 3, 1⟩ rfl).1
      c4zrow h1).1 (by decide)).1
  · exact ((prelaunch_rows_zero c4calc c4machine c4scen ⟨2026, 3, 1⟩ rfl).1
      c4lrow h2).2 rfl

/-- Pre-launch iterations never touch the running balance, so the first row
the search finds at or after the launch date still carries `initial_aum`. -/
theorem projRows_find_first_active (m : Machine) (l : PDate)
    (hl : m.launch_date = some l) (rate : ℚ) :
    ∀ (ds : List PDate) (r : Row),
      (projRows m rate ds m.initial_aum).find?
        (fun row => !(row.date.blt l)) = some r →
      r.aum = m.initial_aum := by
  intro ds
  induction ds with
  | nil => intro r h; simp [projRows] at h
  | cons d ds ih =>
    intro r h
    rw [projRows] at h
    by_cases hp : isPreLaunch m d = true
    · rw [if_pos hp] at h
      have hblt : d.blt l = true := by simpa [isPreLaunch, hl] using hp
      rw [List.find?_cons_of_neg _ (by simp [zeroRow, hblt])] at h
      exact ih r h
    · rw [if_neg hp] at h
      have hblt : d.blt l = false := by
        cases hb : d.blt l with
        | false => rfl
        | true => exact absurd (by simpa [isPreLaunch, hl] using hb) hp
      rw [List.find?_cons_of_pos _ (by simp [emitRow, hblt])] at h
      rw [Option.some_inj] at h
      rw [← h]
      simp [emitRow]

/-- C10: for a unit with a launch date, the first emitted row dated at or after
the launch date carries native balance exactly `initial_aum`, even when the
launch date coincides with no period date (mid-month launch): pre-launch
iterations skip the growth update entirely. -/
theorem first_active_row_initial_aum (c : RevenueCalculator) (m : Machine)
    (s : Scenario) (l : PDate) (hl : m.launch_date = some l) (r : Row)
    (hr : (calculate_machine_projections c m s).find?
      (fun row => !(row.date.blt l)) = some r) :
    r.aum = m.initial_aum :=
  projRows_find_first_active m l hl (currencyRate s m.currency) c.dates r hr

def c10machine : Machine :=
  ⟨"W10", "USD", some ⟨2026, 1, 15⟩, 500, 1/10, 0, 0, 0, 0, 0, 0, 0⟩

def c10calc : RevenueCalculator := ⟨⟨2026, 1, 1⟩, 2⟩

def c10scen : Scenario := ⟨3000, 90000⟩

def c10row : Row := ⟨⟨2026, 2, 1⟩, 500, 500, 0, 0, 0, 0, 0, "W10", "USD"⟩

theorem first_active_row_initial_aum_witness :
    (calculate_machine_projections c10calc c10machine c10scen).find?
      (fun row => !(row.date.blt ⟨2026, 1, 15⟩)) = some c10row ∧
    c10row.aum = c10machine.initial_aum := by
  have hev : calculate_machine_projections c10calc c10machine c10scen =
      [⟨⟨2026, 1, 1⟩, 0, 0, 0, 0, 0, 0, 0, "W10", "USD"⟩, c10row] := by
    simp [calculate_machine_projections, RevenueCalculator.dates, projRows, emitRow,
      currencyRate, isPreLaunch, isLaunchMonth, PDate.blt, PDate.addMonths,
      daysInMonth, isLeapYear, Machine.management_fee_makina,
      Machine.performance_fee_makina, employee_capital_rate, zeroRow,
      c10calc, c10machine, c10scen, c10row, List.range_succ]
  have hf : (calculate_machine_projections c10calc c10machine c10scen).find?
      (fun row => !(row.date.blt ⟨2026, 1, 15⟩)) = some c10row := by
    rw [hev]
    rw [List.find?_cons_of_neg _ (by decide), List.find?_cons_of_pos _ (by decide)]
  exact ⟨hf, first_active_row_initial_aum c10calc c10machine c10scen
    ⟨2026, 1, 15⟩ rfl c10row hf⟩

def c1machine : Machine := ⟨"X", "XYZ", none, 100, 0, 0, 0, 0, 0, 0, 0, 0⟩

def c1calc : RevenueCalculator := ⟨⟨2026, 1, 1⟩, 1⟩

def c1scen : Scenario := ⟨2000, 50000⟩

/-- C1 counterexample: a projection call on a unit whose currency is the
unknown string "XYZ" does not fail and does not stop before emitting rows —
it emits a row converted with a silently substituted default rate of 1. -/
theorem unknown_currency_counterexample :
    currencyRate c1scen "XYZ" = 1 ∧
    calculate_machine_projections c1calc c1machine c1scen =
      [⟨⟨2026, 1, 1⟩, 100, 100, 0, 0, 0, 0, 0, "X", "XYZ"⟩] := by
  constructor
  · simp [currencyRate]
  · simp [calculate_machine_projections, RevenueCalculator.dates, projRows, emitRow,
      currencyRate, isPreLaunch, isLaunchMonth, PDate.addMonths, daysInMonth,
      isLeapYear, Machine.management_fee_makina, Machine.performance_fee_makina,
      employee_capital_rate, c1calc, c1machine, c1scen, List.range_succ]

/-- C1 (amended): the engine never fails on an unknown currency; the lookup
silently substitutes the default conversion rate 1.0 and the projection emits
its full complement of rows. -/
theorem unknown_currency_defaults_to_one (s : Scenario) (cur : String)
    (h1 : cur ≠ "ETH") (h2 : cur ≠ "USD") (h3 : cur ≠ "BTC") :
    currencyRate s cur = 1 ∧
    ∀ (c : RevenueCalculator) (m : Machine), m.currency = cur →
      (calculate_machine_projections c m s).length = c.months.toNat := by
  refine ⟨by simp [currencyRate, h1, h2, h3], ?_⟩
  intro c m _
  exact calculate_machine_projections_length c m s

theorem unknown_currency_defaults_to_one_witness :
    currencyRate c1scen "XYZ" = 1 ∧
    (calculate_machine_projections c1calc c1machine c1scen).length =
      c1calc.months.toNat :=
  ⟨(unknown_currency_defaults_to_one c1scen "XYZ" (by decide) (by decide)
      (by decide)).1,
   (unknown_currency_defaults_to_one c1scen "XYZ" (by decide) (by decide)
      (by decide)).2 c1calc c1machine rfl⟩

def c7machine : Machine := ⟨"Bad", "USD", none, -1, 2, 3, -2, 5, 7, 9, -4, 11⟩

def c7calc : RevenueCalculator := ⟨⟨2026, 1, 1⟩, 1⟩

def c7negcalc : RevenueCalculator := ⟨⟨2026, 1, 1⟩, -3⟩

def c7scen : Scenario := ⟨3000, 90000⟩

/-- C7 counterexample: a unit with negative `initial_aum` and rate fields far
outside [0,1] is accepted without any error: the projection emits a row whose
balance is the negative input. -/
theorem no_validation_counterexample :
    (calculate_machine_projections c7calc c7machine c7scen).map
      (fun r => r.aum) = [-1] := by
  simp [calculate_machine_projections, RevenueCalculator.dates, projRows, emitRow,
    currencyRate, isPreLaunch, isLaunchMonth, PDate.addMonths, daysInMonth,
    isLeapYear, Machine.management_fee_makina, Machine.performance_fee_makina,
    employee_capital_rate, c7calc, c7machine, c7scen, List.range_succ]

/-- C7 (amended): the code performs no input validation.  Every call returns
normally with exactly `max(horizon, 0)` rows — invalid unit parameters flow
through the formulas unchecked, and a non-positive horizon yields an empty
series rather than an error. -/
theorem no_validation_total_function (c : RevenueCalculator) (m : Machine)
    (s : Scenario) :
    (calculate_machine_projections c m s).length = c.months.toNat ∧
    (c.months ≤ 0 → calculate_machine_projections c m s = []) := by
  refine ⟨calculate_machine_projections_length c m s, fun h => ?_⟩
  have h0 : c.months.toNat = 0 := Int.toNat_of_nonpos h
  unfold calculate_machine_projections RevenueCalculator.dates
  rw [h0]
  rfl

theorem no_validation_total_function_witness :
    calculate_machine_projections c7negcalc c7machine c7scen = [] :=
  (no_validation_total_function c7negcalc c7machine c7scen).2 (by decide)

def c8row : Row := ⟨⟨2026, 1, 1⟩, 0, 0, 0, 0, 0, 5, 5, "Z", "USD"⟩

/-- C8 counterexample: on a dataset whose single period has aggregate USD
balance 0 but aggregate USD fee 5, the per-period annualized fee percentage
and the yearly average fee percentage are +infinity (pandas `5/0`), not 0:
`fillna(0)` replaces only the 0/0 NaN, never an infinity. -/
theorem fee_pct_zero_balance_counterexample :
    calculate_fee_percentage [c8row] =
      [⟨⟨2026, 1, 1⟩, PFloat.posInf, 5, 0⟩] ∧
    aggregate_by_year [c8row] = [⟨2026, 0, 0, 5, 5, PFloat.posInf⟩] := by
  constructor
  · simp [calculate_fee_percentage, feePctRowOf, uniqueDates, sumAt, c8row,
      pdiv, PFloat.scale, PFloat.fillna0]
  · simp [aggregate_by_year, yearRowOf, yearsOf, datesInYear, uniqueDates,
      latestDate, maxStep, sumAt, c8row, pdiv, PFloat.scale, PFloat.fillna0]

/-- C8 (amended): the fee-percentage outputs are exactly 0 whenever the
aggregate fee of the period (or year) is 0 — in particular in every
zero-balance, zero-fee period, where the 0/0 NaN is filled with 0.  (When the
balance is 0 but the fee is not, the division instead yields an infinity,
per the counterexample.) -/
theorem fee_pct_zero_fee_is_zero (df : List Row) :
    (∀ p ∈ calculate_fee_percentage df, p.total_fee_usd = 0 →
       p.fee_pct_annualized = PFloat.val 0) ∧
    (∀ yr ∈ aggregate_by_year df, yr.total_fees = 0 →
       yr.avg_fee_pct = PFloat.val 0) := by
  constructor
  · intro p hp h0
    obtain ⟨d, _, rfl⟩ := List.mem_map.mp hp
    have hfee : sumAt df d (fun r => r.total_fee_usd) = 0 := h0
    show (((pdiv (sumAt df d (fun r => r.total_fee_usd))
        (sumAt df d (fun r => r.aum_usd))).scale 12).scale 100).fillna0 = PFloat.val 0
    rw [hfee]
    by_cases ha : sumAt df d (fun r => r.aum_usd) = 0
    · simp [ha, pdiv, PFloat.scale, PFloat.fillna0]
    · simp [ha, pdiv, PFloat.scale, PFloat.fillna0]
  · intro yr hyr h0
    obtain ⟨y, _, rfl⟩ := List.mem_map.mp hyr
    have hfee : ((datesInYear df y).map
        (fun d => sumAt df d (fun r => r.total_fee_usd))).sum = 0 := h0
    show ((pdiv (((datesInYear df y).map
        (fun d => sumAt df d (fun r => r.total_fee_usd))).sum) _).scale 100).fillna0 =
      PFloat.val 0
    rw [hfee]
    by_cases ha : ((((datesInYear df y).map (fun d => sumAt df d (fun r => r.aum_usd))).sum) /
        ((datesInYear df y).length : ℚ)) = 0
    · simp [ha, pdiv, PFloat.scale, PFloat.fillna0]
    · simp [ha, pdiv, PFloat.scale, PFloat.fillna0]

def c8wrow : Row := ⟨⟨2026, 1, 1⟩, 0, 0, 0, 0, 0, 0, 0, "Z", "USD"⟩

theorem fee_pct_zero_fee_is_zero_witness :
    (⟨⟨2026, 1, 1⟩, PFloat.val 0, 0, 0⟩ : FeePctRow) ∈
      calculate_fee_percentage [c8wrow] ∧
    (⟨⟨2026, 1, 1⟩, PFloat.val 0, 0, 0⟩ : FeePctRow).fee_pct_annualized =
      PFloat.val 0 := by
  have hm : (⟨⟨2026, 1, 1⟩, PFloat.val 0, 0, 0⟩ : FeePctRow) ∈
      calculate_fee_percentage [c8wrow] := by
    simp [calculate_fee_percentage, feePctRowOf, uniqueDates, sumAt, c8wrow,
      pdiv, PFloat.scale, PFloat.fillna0]
  exact ⟨hm, (fee_pct_zero_fee_is_zero [c8wrow]).1 _ hm rfl⟩

/-- Invariant of the running-maximum fold: starting from `some a`, the result
is an element of `{a} ∪ l` and an upper bound of `{a} ∪ l`. -/
theorem foldl_maxStep_spec :
    ∀ (l : List PDate) (a d : PDate), l.foldl maxStep (some a) = some d →
      (d = a ∨ d ∈ l) ∧ a.ble d = true ∧ ∀ x ∈ l, x.ble d = true := by
  intro l
  induction l with
  | nil =>
    intro a d h
    rw [List.foldl_nil, Option.some_inj] at h
    subst h
    exact ⟨Or.inl rfl, PDate.ble_refl a, by simp⟩
  | cons x xs ih =>
    intro a d h
    rw [List.foldl_cons,
      show maxStep (some a) x = if a.blt x then some x else some a from rfl] at h
    by_cases hax : a.blt x = true
    · rw [if_pos hax] at h
      obtain ⟨hd, hxd, hall⟩ := ih x d h
      refine ⟨?_, PDate.ble_trans (PDate.blt_ble hax) hxd, ?_⟩
      · rcases hd with rfl | hd
        · exact Or.inr (List.mem_cons_self d xs)
        · exact Or.inr (List.mem_cons_of_mem x hd)
      · intro z hz
        rcases List.mem_cons.mp hz with rfl | hz
        · exact hxd
        · exact hall z hz
    · rw [if_neg hax] at h
      obtain ⟨hd, had, hall⟩ := ih a d h
      have hxa : x.ble a = true := by
        rw [PDate.ble_iff]
        cases hb : a.blt x with
        | false => rfl
        | true => exact absurd hb hax
      refine ⟨?_, had, ?_⟩
      · rcases hd with rfl | hd
        · exact Or.inl rfl
        · exact Or.inr (List.mem_cons_of_mem x hd)
      · intro z hz
        rcases List.mem_cons.mp hz with rfl | hz
        · exact PDate.ble_trans hxa had
        · exact hall z hz

/-- The fold from a `some` accumulator never returns `none`. -/
theorem foldl_maxStep_isSome :
    ∀ (l : List PDate) (a : PDate), ∃ d, l.foldl maxStep (some a) = some d := by
  intro l
  induction l with
  | nil => intro a; exact ⟨a, rfl⟩
  | cons x xs ih =>
    intro a
    rw [List.foldl_cons,
      show maxStep (some a) x = if a.blt x then some x else some a from rfl]
    by_cases hax : a.blt x = true
    · rw [if_pos hax]; exact ih x
    · rw [if_neg hax]; exact ih a

/-- `latestDate` returns an element of the list that is an upper bound of the
list. -/
theorem latestDate_spec (l : List PDate) (d : PDate) (h : latestDate l = some d) :
    d ∈ l ∧ ∀ x ∈ l, x.ble d = true := by
  cases l with
  | nil => simp [latestDate] at h
  | cons x xs =>
    rw [latestDate, List.foldl_cons, show maxStep none x = some x from rfl] at h
    obtain ⟨hd, hxd, hall⟩ := foldl_maxStep_spec xs x d h
    refine ⟨?_, ?_⟩
    · rcases hd with rfl | hd
      · exact List.mem_cons_self d xs
      · exact List.mem_cons_of_mem x hd
    · intro z hz
      rcases List.mem_cons.mp hz with rfl | hz
      · exact hxd
      · exact hall z hz

/-- `latestDate` is `some` on every non-empty list. -/
theorem latestDate_isSome (l : List PDate) (hne : l ≠ []) :
    ∃ d, latestDate l = some d := by
  cases l with
  | nil => exact absurd rfl hne
  | cons x xs =>
    rw [latestDate, List.foldl_cons, show maxStep none x = some x from rfl]
    exact foldl_maxStep_isSome xs x

/-- C9: each year row of `aggregate_by_year` reports as end-of-year balance
the summed USD balance of the single latest-dated period of that year — the
maximum (by date order) of the year's distinct periods, which every period of
the year is at or before — while the management, performance and total fee
columns are sums of the per-period totals over all periods of that year. -/
theorem year_rollup_spec (df : List Row) (yr : YearRow)
    (h : yr ∈ aggregate_by_year df) :
    ∃ dmax, latestDate (datesInYear df yr.year) = some dmax ∧
      dmax ∈ datesInYear df yr.year ∧
      (∀ d ∈ datesInYear df yr.year, d.ble dmax = true) ∧
      yr.end_of_year_aum = sumAt df dmax (fun r => r.aum_usd) ∧
      yr.total_management_fees = ((datesInYear df yr.year).map
        (fun d => sumAt df d (fun r => r.management_fee_usd))).sum ∧
      yr.total_performance_fees = ((datesInYear df yr.year).map
        (fun d => sumAt df d (fun r => r.performance_fee_usd))).sum ∧
      yr.total_fees = ((datesInYear df yr.year).map
        (fun d => sumAt df d (fun r => r.total_fee_usd))).sum := by
  obtain ⟨y, hy, rfl⟩ := List.mem_map.mp h
  have hyy : (yearRowOf df y).year = y := rfl
  rw [hyy]
  have hne : datesInYear df y ≠ [] := by
    rw [yearsOf] at hy
    obtain ⟨d0, hd0, hd0y⟩ := List.mem_map.mp (List.mem_dedup.mp hy)
    have : d0 ∈ datesInYear df y :=
      List.mem_filter.mpr ⟨hd0, by simp [hd0y]⟩
    exact List.ne_nil_of_mem this
  obtain ⟨dmax, hmax⟩ := latestDate_isSome (datesInYear df y) hne
  obtain ⟨hmem, hub⟩ := latestDate_spec (datesInYear df y) dmax hmax
  refine ⟨dmax, hmax, hmem, hub, ?_, rfl, rfl, rfl⟩
  show (match latestDate (datesInYear df y) with
        | some d => sumAt df d (fun r => r.aum_usd)
        | none => 0) = sumAt df dmax (fun r => r.aum_usd)
  rw [hmax]

def c9r1 : Row := ⟨⟨2026, 1, 1⟩, 10, 10, 1, 1, 0, 0, 1, "A", "USD"⟩

def c9r2 : Row := ⟨⟨2026, 3, 1⟩, 20, 20, 2, 2, 0, 0, 2, "A", "USD"⟩

theorem year_rollup_spec_witness :
    yearRowOf [c9r1, c9r2] 2026 ∈ aggregate_by_year [c9r1, c9r2] ∧
    ∃ dmax, latestDate (datesInYear [c9r1, c9r2] (yearRowOf [c9r1, c9r2] 2026).year) =
        some dmax ∧
      dmax ∈ datesInYear [c9r1, c9r2] (yearRowOf [c9r1, c9r2] 2026).year ∧
      (∀ d ∈ datesInYear [c9r1, c9r2] (yearRowOf [c9r1, c9r2] 2026).year,
        d.ble dmax = true) ∧
      (yearRowOf [c9r1, c9r2] 2026).end_of_year_aum =
        sumAt [c9r1, c9r2] dmax (fun r => r.aum_usd) ∧
      (yearRowOf [c9r1, c9r2] 2026).total_management_fees =
        ((datesInYear [c9r1, c9r2] (yearRowOf [c9r1, c9r2] 2026).year).map
          (fun d => sumAt [c9r1, c9r2] d (fun r => r.management_fee_usd))).sum ∧
      (yearRowOf [c9r1, c9r2] 2026).total_performance_fees =
        ((datesInYear [c9r1, c9r2] (yearRowOf [c9r1, c9r2] 2026).year).map
          (fun d => sumAt [c9r1, c9r2] d (fun r => r.performance_fee_usd))).sum ∧
      (yearRowOf [c9r1, c9r2] 2026).total_fees =
        ((datesInYear [c9r1, c9r2] (yearRowOf [c9r1, c9r2] 2026).year).map
          (fun d => sumAt [c9r1, c9r2] d (fun r => r.total_fee_usd))).sum := by
  have hm : yearRowOf [c9r1, c9r2] 2026 ∈ aggregate_by_year [c9r1, c9r2] := by
    have : yearsOf [c9r1, c9r2] = [2026] := by
      simp [yearsOf, uniqueDates, c9r1, c9r2]
    rw [aggregate_by_year, this]
    simp
  exact ⟨hm, year_rollup_spec [c9r1, c9r2] (yearRowOf [c9r1, c9r2] 2026) hm⟩
